import Mathlib

/-!
Verification of the `pnm` Netpbm codec crate.

The Rust sources under `src/` are shallowly embedded: byte slices become
`List Nat` (every element intended `< 256`), u8/u32 arithmetic becomes `Nat`
with explicit bounds (`checked_mul`/`checked_add` against an explicit
maximum), fallible functions return `Except Error`, and the pointer-cursor
writers become functions producing the list of bytes written.
`fimg::Image` data (an external collaborator of the crate) is modelled as a
width, a height, and a flat sample buffer.
-/

/-- Mirror of `decode::Error` (src/src/decode.rs). `NotDigit` carries the
offending byte (the source stores it as a `char`). -/
inductive Error where
  | TooLarge
  | NotDigit (b : Nat)
  | BadMagic (b : Nat)
  | WrongMagic (got should : Nat)
  | MissingMagic
  | ZeroWidth
  | ZeroHeight
  | MissingWidth
  | MissingHeight
  | MissingData
  | MissingMax
  | MissingDepth
  | MissingTupltype
  | Overflow
deriving DecidableEq, Repr

instance {ε α : Type} [DecidableEq ε] [DecidableEq α] : DecidableEq (Except ε α) := fun x y =>
  match x, y with
  | .ok a, .ok b =>
    if h : a = b then isTrue (by rw [h]) else isFalse (by intro hc; cases hc; exact h rfl)
  | .error a, .error b =>
    if h : a = b then isTrue (by rw [h]) else isFalse (by intro hc; cases hc; exact h rfl)
  | .ok _, .error _ => isFalse (by intro hc; cases hc)
  | .error _, .ok _ => isFalse (by intro hc; cases hc)

/-- `u8::is_ascii_whitespace`: space, tab, newline, form feed, carriage return. -/
def isWs (b : Nat) : Bool := decide (b = 9 ∨ b = 10 ∨ b = 12 ∨ b = 13 ∨ b = 32)

/-- `u8::is_ascii_digit`. -/
def isDigit (b : Nat) : Bool := decide (48 ≤ b ∧ b ≤ 57)

/-- The largest `u32`, the bound enforced by `checked_mul`/`checked_add` at
width 32. -/
def maxU32 : Nat := 4294967295

/-- Loop body of `decode::read_til` (src/src/decode.rs:59-85): consume bytes,
returning the accumulator on whitespace (consumed) or end of input, failing
`NotDigit` on other non-digits, and accumulating `acc*10 + digit` with a
checked multiply and a checked add against the target-width maximum `m`. -/
def read_til_aux (m : Nat) : Nat → List Nat → Except Error (Nat × List Nat)
  | acc, [] => .ok (acc, [])
  | acc, b :: r =>
    if isWs b then .ok (acc, r)
    else if isDigit b then
      if acc * 10 ≤ m then
        if acc * 10 + (b - 48) ≤ m then read_til_aux m (acc * 10 + (b - 48)) r
        else .error .Overflow
      else .error .Overflow
    else .error (.NotDigit b)

/-- `decode::read_til` over a byte cursor: returns the parsed value and the
remaining (unconsumed) bytes. `m` is the maximum of the target integer width
(255 for `u8`, `maxU32` for `u32`). -/
def read_til (m : Nat) (x : List Nat) : Except Error (Nat × List Nat) :=
  read_til_aux m 0 x

/-- Skip ASCII whitespace by lookahead; `none` when the input runs out while
looking (`x.first()?` in the source). Used by `decode::magic`. -/
def skipWsStrict : List Nat → Option (List Nat)
  | [] => none
  | b :: r => if isWs b then skipWsStrict r else some (b :: r)

/-- `decode::magic` (src/src/decode.rs:169-176): expect `'P'`, read the tag
byte minus `'0'` (`checked_sub`, so the byte must be at least `'0'`), then
skip whitespace by lookahead. -/
def magic (x : List Nat) : Option (Nat × List Nat) :=
  match x with
  | [] => none
  | p :: r =>
    if p ≠ 80 then none
    else
      match r with
      | [] => none
      | b :: r' =>
        if b < 48 then none
        else
          match skipWsStrict r' with
          | none => none
          | some r'' => some (b - 48, r'')

/-- Inner comment loop of `decode_header`: after a `'#'`, drop bytes up to
and including the next `'\n'` (EOF tolerated). -/
def skipComment : List Nat → List Nat
  | [] => []
  | b :: r => if b = 10 then r else skipComment r

/-- Fueled outer comment loop; each iteration consumes at least the `'#'`
byte, so fuel `x.length` always suffices. -/
def skipCommentsAux : Nat → List Nat → List Nat
  | 0, x => x
  | _ + 1, [] => []
  | fuel + 1, b :: r => if b = 35 then skipCommentsAux fuel (skipComment r) else b :: r

/-- `while x.first() == Some(&b'#') { ... }` of `decode_header`. -/
def skipComments (x : List Nat) : List Nat := skipCommentsAux x.length x

/-- Mirror of `decode::Header` with `NonZeroU32` dimensions as positive `Nat`. -/
structure Header where
  magic : Nat
  width : Nat
  height : Nat
  max : Option Nat
deriving DecidableEq, Repr

/-- Trailing-whitespace skip before body data in `decode_header`: empty input
is `MissingData` (`x.first().ok_or(Error::MissingData)?`). -/
def skipWsData : List Nat → Except Error (List Nat)
  | [] => .error .MissingData
  | b :: r => if isWs b then skipWsData r else .ok (b :: r)

/-- `Option::ok_or`: `some` becomes `ok`, `none` the given error. -/
def okOr (o : Option α) (e : Error) : Except Error α :=
  match o with
  | some a => .ok a
  | none => .error e

/-- `decode::decode_header` (src/src/decode.rs:179-205): skip comments, parse
width (u32, `ZeroWidth` if zero), height (`ZeroHeight`), check the product
fits in u32 (`TooLarge`), parse a `u8` max value unless the magic is 1 or 4,
and, unless the magic is 4, skip whitespace before the body
(`MissingData` if the input ends). Returns the header and the rest;
the `?` early returns of the source are `Except.bind`. -/
def decode_header (m : Nat) (x : List Nat) : Except Error (Header × List Nat) :=
  (read_til maxU32 (skipComments x)).bind fun wx =>
    if wx.1 = 0 then .error .ZeroWidth
    else
      (read_til maxU32 wx.2).bind fun hx =>
        if hx.1 = 0 then .error .ZeroHeight
        else if maxU32 < wx.1 * hx.1 then .error .TooLarge
        else
          (if m ≠ 4 ∧ m ≠ 1 then (read_til 255 hx.2).map fun vx => (some vx.1, vx.2)
           else .ok (none, hx.2)).bind fun mxx =>
            (if m ≠ 4 then skipWsData mxx.2 else .ok mxx.2).map fun x2 =>
              (⟨m, wx.1, hx.1, mxx.1⟩, x2)

/-- Fueled model of `slice::array_chunks::<n>` / `chunks_exact(n)`: the list of
complete `n`-chunks, the remainder dropped. Fuel `l.length` always suffices
since each step removes `n ≥ 1` elements. -/
def chunksExactAux (n : Nat) : Nat → List α → List (List α)
  | 0, _ => []
  | fuel + 1, l => if 0 < n ∧ n ≤ l.length then l.take n :: chunksExactAux n fuel (l.drop n) else []

/-- `slice::chunks_exact(n)` (complete chunks only). -/
def chunksExact (n : Nat) (l : List α) : List (List α) := chunksExactAux n l.length l

/-- Fueled model of `slice::chunks(n)`: like `chunksExact` but the final
partial chunk is kept. -/
def chunksPartialAux (n : Nat) : Nat → List α → List (List α)
  | 0, _ => []
  | _ + 1, [] => []
  | fuel + 1, a :: l => (a :: l).take n :: chunksPartialAux n fuel ((a :: l).drop n)

/-- `slice::chunks(n)` (trailing partial chunk included). -/
def chunksPartial (n : Nat) (l : List α) : List (List α) := chunksPartialAux n l.length l

/-- Big-endian decimal digit bytes of `n`, fueled (fuel `n` suffices since
`n / 10 < n`). Helper for `decBytes`. -/
def decAux : Nat → Nat → List Nat
  | 0, _ => []
  | _ + 1, 0 => []
  | fuel + 1, Nat.succ n => decAux fuel ((n + 1) / 10) ++ [(n + 1) % 10 + 48]

/-- Modelled from the spec: `encode::encodeu32` lives in `src/encode.rs`,
which is declared by lib.rs but absent from the sources; per the spec
("all multi-byte integers are ASCII decimal") it writes the ASCII decimal
representation of the number. Fuel 10 covers every `u32` (all `n < 10^10`). -/
def decBytes (n : Nat) : List Nat := if n = 0 then [48] else decAux 10 n

/-- The unified image collaborator type (`fimg::Image`): width, height and a
flat row-major sample buffer. -/
structure Image (α : Type) where
  width : Nat
  height : Nat
  buf : List α
deriving DecidableEq, Repr

/-- `fimg::DynImage`: the tagged union over channel counts produced by the
decode dispatch. -/
inductive DynImage where
  | Y (img : Image Nat)
  | Ya (img : Image Nat)
  | Rgb (img : Image Nat)
  | Rgba (img : Image Nat)
deriving DecidableEq, Repr

namespace ppm
namespace raw

/-- `ppm::raw::encode_into` (src/src/ppm.rs:131-141): `"P6 <w> <h> 255\n"`
followed by the raw buffer bytes. The returned byte count of the source is
the length of this list. -/
def encode_into (w h : Nat) (buf : List Nat) : List Nat :=
  [80, 54] ++ [32] ++ decBytes w ++ [32] ++ decBytes h ++ [32, 50, 53, 53, 10] ++ buf

/-- `ppm::raw::size` (src/src/ppm.rs:161-165), as a function of the buffer
length `x.len()`: `2 (magic) + 23 (w h) + data`. -/
def size (bufLen : Nat) : Nat := 2 + 23 + bufLen

/-- `ppm::raw::decode_body_into` (src/src/ppm.rs:144-158): take `w*h`
complete 3-byte chunks from the input; if fewer were written than
`w*h*3` bytes, fail `MissingData`, else the buffer is fully initialized. -/
def decode_body_into (x : List Nat) (w h : Nat) : Except Error (Image Nat) :=
  if ((chunksExact 3 x).take (w * h)).length * 3 < w * h * 3 then .error .MissingData
  else .ok ⟨w, h, ((chunksExact 3 x).take (w * h)).flatten⟩

/-- `ppm::raw::decode_wo_magic` (via `dec_fn!`): classic header with magic 6,
then the body decode (no max-value argument for the raw path). -/
def decode_wo_magic (x : List Nat) : Except Error (Image Nat) :=
  (decode_header 6 x).bind fun hx => decode_body_into hx.2 hx.1.width hx.1.height

/-- `ppm::raw::decode` (via `dec_fn!`): magic must be present and equal 6. -/
def decode (x : List Nat) : Except Error (Image Nat) :=
  (okOr (magic x) .MissingMagic).bind fun mx =>
    if mx.1 ≠ 6 then .error (.WrongMagic mx.1 6) else decode_wo_magic mx.2

end raw
end ppm

namespace pbm

/-- Modelled from the spec: `encode::encode_bool` lives in the absent
`src/encode.rs`; the plain-PBM body is "one decimal digit (`0`/`1`) per
pixel", symmetric with the decoder's `b == b'1'` test. -/
def encode_bool (b : Bool) : Nat := if b then 49 else 48

namespace plain

/-- `pbm::plain::encode_into` (src/src/pbm.rs:80-98): `"P1 <w> <h>\n"`, then
each row as `'0'`/`'1'` bytes each followed by a space, each row followed by
a newline. -/
def encode_into (w h : Nat) (buf : List Bool) : List Nat :=
  [80, 49] ++ [32] ++ decBytes w ++ [32] ++ decBytes h ++ [10]
    ++ (chunksExact w buf).flatMap (fun row => row.flatMap (fun b => [encode_bool b, 32]) ++ [10])

/-- `pbm::plain::size` (src/src/pbm.rs:101-106) as a function of `x.len()`
and the height. -/
def size (bufLen hgt : Nat) : Nat := 2 + 23 + hgt + bufLen * 2

/-- `pbm::plain::decode_body_into` (src/src/pbm.rs:39-55): keep only bytes
`'0'`/`'1'`, take the first `w*h` of them (`b == b'1'` is the sample), fail
`MissingData` when fewer were written. -/
def decode_body_into (x : List Nat) (w h : Nat) : Except Error (Image Bool) :=
  if (((x.filter fun b => b == 48 || b == 49).take (w * h)).map fun b => b == 49).length < w * h
  then .error .MissingData
  else .ok ⟨w, h, ((x.filter fun b => b == 48 || b == 49).take (w * h)).map fun b => b == 49⟩

/-- `pbm::plain::decode_wo_magic` (via `dec_fn!`, magic 1). -/
def decode_wo_magic (x : List Nat) : Except Error (Image Bool) :=
  (decode_header 1 x).bind fun hx => decode_body_into hx.2 hx.1.width hx.1.height

/-- `pbm::plain::decode` (via `dec_fn!`). -/
def decode (x : List Nat) : Except Error (Image Bool) :=
  (okOr (magic x) .MissingMagic).bind fun mx =>
    if mx.1 ≠ 1 then .error (.WrongMagic mx.1 1) else decode_wo_magic mx.2

end plain

namespace raw

/-- One packed byte of the raw-PBM encoder: a chunk of at most 8 booleans,
padded with `false` to 8, folded MSB-first
(`acc | (x as u8) << 7 - i`, src/src/pbm.rs:154-162). -/
def packByte (l : List Bool) : Nat :=
  ((l ++ List.replicate (8 - l.length) false).zip (List.range 8)).foldl
    (fun acc bi => acc ||| ((if bi.1 then 1 else 0) <<< (7 - bi.2))) 0

/-- Body part of `pbm::raw::encode_into` (src/src/pbm.rs:152-163): rows of
`w` booleans, each row split into 8-chunks and packed. -/
def encode_body (w : Nat) (buf : List Bool) : List Nat :=
  (chunksExact w buf).flatMap fun row => (chunksPartial 8 row).map packByte

/-- `pbm::raw::encode_into` (src/src/pbm.rs:144-166): `"P4 <w> <h>\n"` then
the packed rows. -/
def encode_into (w h : Nat) (buf : List Bool) : List Nat :=
  [80, 52] ++ [32] ++ decBytes w ++ [32] ++ decBytes h ++ [10] ++ encode_body w buf

/-- `pbm::raw::size` (src/src/pbm.rs:226-231) as a function of `x.len()`,
width and height. -/
def size (bufLen w hgt : Nat) : Nat :=
  2 + 23 + bufLen / 8 + (if w % 8 ≠ 0 then 1 else 0) * hgt

/-- Bit expansion of one byte, MSB first
(`atools::range::<8>().rev().map(|x| b & (1 << x) != 0)`). -/
def bitsOfByte (b : Nat) : List Bool :=
  (List.range 8).reverse.map fun i => b &&& (1 <<< i) ≠ 0

/-- The boolean stream the raw-PBM body decoder writes: expand all input
bits, chunk them by `width + width % 8` (the source's `padding` variable),
keep the first `width` of each chunk, take `pixels` chunks, and flatten. -/
def writtenBits (x : List Nat) (w pixels : Nat) : List Bool :=
  (((chunksExact (w + w % 8) (x.flatMap bitsOfByte)).map fun c => c.take w).take pixels).flatten

/-- `pbm::raw::decode_body_into` (src/src/pbm.rs:169-193): write the
`writtenBits` stream through the output cursor; fewer than `w*h` writes is
`MissingData`. The source writes through a raw cursor into a `w*h`-element
buffer, so only the first `w*h` written elements land inside it (writes
beyond that are out of bounds); the model keeps that initialized prefix. -/
def decode_body_into (x : List Nat) (w h : Nat) : Except Error (Image Bool) :=
  if (writtenBits x w (w * h)).length < w * h then .error .MissingData
  else .ok ⟨w, h, (writtenBits x w (w * h)).take (w * h)⟩

end raw
end pbm

namespace pam

/-- `pam::Type` (src/src/pam.rs:172-183); named `Typ` since `Type` is a Lean
keyword. -/
inductive Typ where
  | Bit
  | Y
  | RGB
  | BitA
  | YA
  | RGBA
deriving DecidableEq, Repr

/-- `pam::Type::bytes` (src/src/pam.rs:186-194). -/
def Typ.bytes : Typ → Nat
  | .Bit | .Y => 1
  | .BitA | .YA => 2
  | .RGB => 3
  | .RGBA => 4

/-- `pam::PAMHeader` (src/src/pam.rs:159-168), `NonZeroU32` as `Nat`. -/
structure PAMHeader where
  width : Nat
  height : Nat
  depth : Nat
  max : Nat
  tupltype : Typ
deriving DecidableEq, Repr

/-- Byte literal `"WIDTH "`. -/
def wLit : List Nat := [87, 73, 68, 84, 72, 32]

/-- Byte literal `"HEIGHT "`. -/
def hLit : List Nat := [72, 69, 73, 71, 72, 84, 32]

/-- Byte literal `"DEPTH "`. -/
def dLit : List Nat := [68, 69, 80, 84, 72, 32]

/-- Byte literal `"MAXVAL "`. -/
def mLit : List Nat := [77, 65, 88, 86, 65, 76, 32]

/-- Byte literal `"TUPLTYPE "`. -/
def tLit : List Nat := [84, 85, 80, 76, 84, 89, 80, 69, 32]

/-- Byte literal `"\nENDHDR\n"`. -/
def endLit : List Nat := [10, 69, 78, 68, 72, 68, 82, 10]

/-- Byte literal `"BLACKANDWHITE"`. -/
def bwLit : List Nat := [66, 76, 65, 67, 75, 65, 78, 68, 87, 72, 73, 84, 69]

/-- Byte literal `"_ALPHA"`. -/
def alphaLit : List Nat := [95, 65, 76, 80, 72, 65]

/-- Byte literal `"GRAYSCALE"`. -/
def grayLit : List Nat := [71, 82, 65, 89, 83, 67, 65, 76, 69]

/-- Byte literal `"RGB"`. -/
def rgbLit : List Nat := [82, 71, 66]

/-- The `test!` macro of `decode_pam_header`: read exactly `lit.length` bytes
and compare them against the literal, failing with `e` if the input is too
short or the bytes differ. -/
def testLit (lit : List Nat) (e : Error) (x : List Nat) : Except Error (List Nat) :=
  if x.take lit.length = lit then .ok (x.drop lit.length) else .error e

/-- `slice::iter::position`: index of the first element satisfying `p`. -/
def position (p : Nat → Bool) : List Nat → Option Nat
  | [] => none
  | a :: l => if p a then some 0 else (position p l).map (· + 1)

/-- The tupltype byte-string match of `decode_pam_header`
(src/src/pam.rs:277-285). -/
def parseTupl (name : List Nat) : Option Typ :=
  if name = bwLit then some .Bit
  else if name = bwLit ++ alphaLit then some .BitA
  else if name = grayLit then some .Y
  else if name = grayLit ++ alphaLit then some .YA
  else if name = rgbLit then some .RGB
  else if name = rgbLit ++ alphaLit then some .RGBA
  else none

/-- `pam::decode_pam_header` (src/src/pam.rs:255-295): five fixed literals in
order, each value parsed by `read_til` (u32 for dimensions, u8 for depth and
max), zero and overflow checks on the dimensions, the tupltype matched
against the six known names up to the next `'\n'`, and the trailing literal
`"\nENDHDR\n"`. -/
def decode_pam_header (x : List Nat) : Except Error (PAMHeader × List Nat) :=
  (testLit wLit .MissingWidth x).bind fun x =>
  (read_til maxU32 x).bind fun wx =>
  if wx.1 = 0 then .error .ZeroWidth
  else
    (testLit hLit .MissingHeight wx.2).bind fun x =>
    (read_til maxU32 x).bind fun hx =>
    if hx.1 = 0 then .error .ZeroHeight
    else if maxU32 < wx.1 * hx.1 then .error .TooLarge
    else
      (testLit dLit .MissingDepth hx.2).bind fun x =>
      (read_til 255 x).bind fun dx =>
      (testLit mLit .MissingMax dx.2).bind fun x =>
      (read_til 255 x).bind fun mx =>
      (testLit tLit .MissingTupltype mx.2).bind fun x =>
      (okOr (position (fun b => b == 10) x) .MissingTupltype).bind fun e =>
      (okOr (parseTupl (x.take e)) .MissingTupltype).bind fun t =>
      (testLit endLit .MissingData (x.drop e)).map fun x =>
        (⟨wx.1, hx.1, dx.1, mx.1, t⟩, x)

/-- `u8::saturating_mul(0xff)` applied to a byte. -/
def satMul255 (b : Nat) : Nat := min (b * 255) 255

/-- `pam::decode_inner` (src/src/pam.rs:228-252), returning the list of bytes
actually written through the output cursor. For `Bit`/`BitA` the source
writes `min(available, needed)` elements and returns `Ok(n)` with no length
check; for the other tupltypes it fails `MissingData` when the input is
shorter than `n` and otherwise block-copies exactly `n` bytes. -/
def decode_inner (x : List Nat) (header : PAMHeader) : Except Error (List Nat) :=
  let n := header.tupltype.bytes * header.width * header.height
  match header.tupltype with
  | .Bit => .ok ((x.map satMul255).take n)
  | .BitA =>
      .ok (((chunksExact 2 x).take (header.width * header.height)).flatMap fun c =>
        match c with
        | [a, b] => [satMul255 a, b]
        | _ => [])
  | .Y | .YA | .RGB | .RGBA =>
      if x.length < n then .error .MissingData else .ok (x.take n)

/-- `pam::decode_wo_magic` (src/src/pam.rs:205-222): parse the header, run
`decode_inner`, and wrap the buffer in the `DynImage` variant selected by the
tupltype alone. The source calls `alloc.set_len(n)` unconditionally; the
model's buffer is the initialized prefix actually written (shorter than `n`
exactly when the source would expose uninitialized memory). -/
def decode_wo_magic (x : List Nat) : Except Error DynImage :=
  (decode_pam_header x).bind fun hx =>
    (decode_inner hx.2 hx.1).map fun buf =>
      match hx.1.tupltype with
      | .Bit => .Y ⟨hx.1.width, hx.1.height, buf⟩
      | .Y => .Y ⟨hx.1.width, hx.1.height, buf⟩
      | .BitA => .Ya ⟨hx.1.width, hx.1.height, buf⟩
      | .YA => .Ya ⟨hx.1.width, hx.1.height, buf⟩
      | .RGB => .Rgb ⟨hx.1.width, hx.1.height, buf⟩
      | .RGBA => .Rgba ⟨hx.1.width, hx.1.height, buf⟩

/-- `pam::encode_into` (src/src/pam.rs:128-155): the keyed header (magic
`P7`, `WIDTH`, `HEIGHT`, `DEPTH` as a single digit byte, `MAXVAL 255`,
`TUPLTYPE <name>`, `ENDHDR`), then the body: for `BLACKANDWHITE` every
buffer byte is written xor 1, otherwise the buffer is copied verbatim. -/
def encode_into (buf : List Nat) (w h : Nat) (tupltype : List Nat) (depth : Nat) : List Nat :=
  [80, 55]
    ++ [10] ++ wLit ++ decBytes w
    ++ [10] ++ hLit ++ decBytes h
    ++ [10] ++ dLit ++ [depth + 48]
    ++ [10] ++ mLit ++ [50, 53, 53, 10]
    ++ tLit ++ tupltype
    ++ endLit
    ++ (if tupltype = bwLit then buf.map (fun b => b ^^^ 1) else buf)

/-- `PAM for Image<T, 1>::encode_into` (src/src/pam.rs:53-55): `GRAYSCALE`,
depth 1. -/
def encode_y (buf : List Nat) (w h : Nat) : List Nat := encode_into buf w h grayLit 1

/-- `PAMBit for Image<T, 1>::encode_into` (src/src/pam.rs:66-70): the bool
buffer reinterpreted as bytes (`false`/`true` as 0/1), `BLACKANDWHITE`,
depth 1. -/
def encode_bit (buf : List Bool) (w h : Nat) : List Nat :=
  encode_into (buf.map fun b => if b then 1 else 0) w h bwLit 1

/-- `PAM for Image<T, 2>::encode_into` (src/src/pam.rs:81-88):
`GRAYSCALE_ALPHA`, depth 2. -/
def encode_ya (buf : List Nat) (w h : Nat) : List Nat :=
  encode_into buf w h (grayLit ++ alphaLit) 2

/-- `PAM for Image<T, 3>::encode_into` (src/src/pam.rs:99-101): `RGB`,
depth 3. -/
def encode_rgb (buf : List Nat) (w h : Nat) : List Nat := encode_into buf w h rgbLit 3

/-- `PAM for Image<T, 4>::encode_into` (src/src/pam.rs:112-114): `RGB_ALPHA`
with depth argument 2 as in the source. -/
def encode_rgba (buf : List Nat) (w h : Nat) : List Nat :=
  encode_into buf w h (rgbLit ++ alphaLit) 2

/-- `pam::size` (src/src/pam.rs:298-300). -/
def size (bufLen : Nat) : Nat := 92 + bufLen

end pam

/-! ## Lemmas about the numeric parser -/

/-- Horner accumulation of ASCII digit bytes starting from `acc`, the value
`read_til` computes while scanning. -/
def valFrom (acc : Nat) (ds : List Nat) : Nat :=
  ds.foldl (fun a d => a * 10 + (d - 48)) acc

/-- The numeric value of a big-endian ASCII digit string. -/
def digitsVal (ds : List Nat) : Nat := valFrom 0 ds

/-- Every byte of `ds` is an ASCII digit. -/
def allDigits (ds : List Nat) : Prop := ∀ d ∈ ds, isDigit d = true

instance (ds : List Nat) : Decidable (allDigits ds) := by
  unfold allDigits; infer_instance

theorem valFrom_cons (acc d : Nat) (ds : List Nat) :
    valFrom acc (d :: ds) = valFrom (acc * 10 + (d - 48)) ds := rfl

theorem valFrom_concat (acc d : Nat) (ds : List Nat) :
    valFrom acc (ds ++ [d]) = valFrom acc ds * 10 + (d - 48) := by
  simp [valFrom, List.foldl_append]

theorem le_valFrom (ds : List Nat) : ∀ acc, acc ≤ valFrom acc ds := by
  induction ds with
  | nil => intro acc; exact Nat.le_refl _
  | cons d ds ih =>
    intro acc
    calc acc ≤ acc * 10 + (d - 48) := by omega
    _ ≤ valFrom (acc * 10 + (d - 48)) ds := ih _

theorem isWs_of_isDigit {d : Nat} (h : isDigit d = true) : isWs d = false := by
  simp only [isDigit, decide_eq_true_eq] at h
  simp only [isWs, decide_eq_false_iff_not]
  omega

theorem read_til_aux_ws (m : Nat) (ds : List Nat) : ∀ acc, allDigits ds →
    valFrom acc ds ≤ m → ∀ w rest, isWs w = true →
    read_til_aux m acc (ds ++ w :: rest) = .ok (valFrom acc ds, rest) := by
  induction ds with
  | nil => intro acc _ _ w rest hw; simp [read_til_aux, hw, valFrom]
  | cons d ds ih =>
    intro acc hdig hle w rest hw
    have hd : isDigit d = true := hdig d (List.mem_cons_self ..)
    have hstep : acc * 10 + (d - 48) ≤ valFrom acc (d :: ds) := by
      rw [valFrom_cons]; exact le_valFrom ds _
    simp only [List.cons_append, read_til_aux, isWs_of_isDigit hd, hd,
      if_true, if_false, Bool.false_eq_true]
    rw [if_pos (by omega), if_pos (by omega)]
    rw [valFrom_cons] at hle ⊢
    exact ih _ (fun d hm => hdig d (List.mem_cons_of_mem _ hm)) hle w rest hw

theorem read_til_aux_eof (m : Nat) (ds : List Nat) : ∀ acc, allDigits ds →
    valFrom acc ds ≤ m →
    read_til_aux m acc ds = .ok (valFrom acc ds, []) := by
  induction ds with
  | nil => intro acc _ _; simp [read_til_aux, valFrom]
  | cons d ds ih =>
    intro acc hdig hle
    have hd : isDigit d = true := hdig d (List.mem_cons_self ..)
    have hstep : acc * 10 + (d - 48) ≤ valFrom acc (d :: ds) := by
      rw [valFrom_cons]; exact le_valFrom ds _
    simp only [read_til_aux, isWs_of_isDigit hd, hd, if_true, if_false,
      Bool.false_eq_true]
    rw [if_pos (by omega), if_pos (by omega)]
    rw [valFrom_cons] at hle ⊢
    exact ih _ (fun d hm => hdig d (List.mem_cons_of_mem _ hm)) hle

theorem read_til_aux_notdigit (m : Nat) (ds : List Nat) : ∀ acc, allDigits ds →
    valFrom acc ds ≤ m → ∀ c rest, isDigit c = false → isWs c = false →
    read_til_aux m acc (ds ++ c :: rest) = .error (.NotDigit c) := by
  induction ds with
  | nil => intro acc _ _ c rest hc hcw; simp [read_til_aux, hc, hcw]
  | cons d ds ih =>
    intro acc hdig hle c rest hc hcw
    have hd : isDigit d = true := hdig d (List.mem_cons_self ..)
    have hstep : acc * 10 + (d - 48) ≤ valFrom acc (d :: ds) := by
      rw [valFrom_cons]; exact le_valFrom ds _
    simp only [List.cons_append, read_til_aux, isWs_of_isDigit hd, hd,
      if_true, if_false, Bool.false_eq_true]
    rw [if_pos (by omega), if_pos (by omega)]
    rw [valFrom_cons] at hle
    exact ih _ (fun d hm => hdig d (List.mem_cons_of_mem _ hm)) hle c rest hc hcw

theorem read_til_aux_overflow (m : Nat) (ds : List Nat) : ∀ acc, allDigits ds →
    acc ≤ m → m < valFrom acc ds → ∀ rest,
    read_til_aux m acc (ds ++ rest) = .error .Overflow := by
  induction ds with
  | nil =>
    intro acc _ hacc hlt
    exact absurd hlt (by simp [valFrom]; omega)
  | cons d ds ih =>
    intro acc hdig hacc hlt rest
    have hd : isDigit d = true := hdig d (List.mem_cons_self ..)
    simp only [List.cons_append, read_til_aux, isWs_of_isDigit hd, hd,
      if_true, if_false, Bool.false_eq_true]
    by_cases h1 : acc * 10 ≤ m
    · rw [if_pos h1]
      by_cases h2 : acc * 10 + (d - 48) ≤ m
      · rw [if_pos h2]
        rw [valFrom_cons] at hlt
        exact ih _ (fun d hm => hdig d (List.mem_cons_of_mem _ hm)) h2 hlt rest
      · rw [if_neg h2]
    · rw [if_neg h1]

theorem read_til_ws {m : Nat} {ds : List Nat} (hdig : allDigits ds)
    (hle : digitsVal ds ≤ m) {w : Nat} (hw : isWs w = true) (rest : List Nat) :
    read_til m (ds ++ w :: rest) = .ok (digitsVal ds, rest) :=
  read_til_aux_ws m ds 0 hdig hle w rest hw

theorem read_til_eof {m : Nat} {ds : List Nat} (hdig : allDigits ds)
    (hle : digitsVal ds ≤ m) :
    read_til m ds = .ok (digitsVal ds, []) :=
  read_til_aux_eof m ds 0 hdig hle

theorem read_til_notdigit {m : Nat} {ds : List Nat} (hdig : allDigits ds)
    (hle : digitsVal ds ≤ m) {c : Nat} (hc : isDigit c = false)
    (hcw : isWs c = false) (rest : List Nat) :
    read_til m (ds ++ c :: rest) = .error (.NotDigit c) :=
  read_til_aux_notdigit m ds 0 hdig hle c rest hc hcw

theorem read_til_overflow {m : Nat} {ds : List Nat} (hdig : allDigits ds)
    (hlt : m < digitsVal ds) (rest : List Nat) :
    read_til m (ds ++ rest) = .error .Overflow :=
  read_til_aux_overflow m ds 0 hdig (Nat.zero_le m) hlt rest

/-! ## Lemmas about decimal encoding -/

theorem decAux_digits : ∀ fuel n, allDigits (decAux fuel n) := by
  intro fuel
  induction fuel with
  | zero => intro n d hd; simp [decAux] at hd
  | succ fuel ih =>
    intro n
    match n with
    | 0 => intro d hd; simp [decAux] at hd
    | Nat.succ k =>
      intro d hd
      simp only [decAux, List.mem_append, List.mem_singleton] at hd
      rcases hd with hd | hd
      · exact ih _ d hd
      · subst hd
        simp only [isDigit, decide_eq_true_eq]
        omega

theorem decAux_val : ∀ fuel n, n < 10 ^ fuel → ∀ acc,
    valFrom acc (decAux fuel n) = acc * 10 ^ (decAux fuel n).length + n := by
  intro fuel
  induction fuel with
  | zero =>
    intro n hn acc
    interval_cases n
    simp [decAux, valFrom]
  | succ fuel ih =>
    intro n hn acc
    match n with
    | 0 => simp [decAux, valFrom]
    | Nat.succ k =>
      have hq : (k + 1) / 10 < 10 ^ fuel := by
        rw [Nat.div_lt_iff_lt_mul (by omega : 0 < 10)]
        calc k + 1 < 10 ^ (fuel + 1) := hn
        _ = 10 ^ fuel * 10 := by rw [pow_succ]
      simp only [decAux]
      rw [valFrom_concat, ih _ hq acc, List.length_append, List.length_cons,
        List.length_nil]
      have hmod : (k + 1) % 10 + 48 - 48 = (k + 1) % 10 := by omega
      rw [hmod, pow_succ]
      have := Nat.div_add_mod (k + 1) 10
      ring_nf
      omega

theorem decBytes_val {n : Nat} (hn : n < 10 ^ 10) : digitsVal (decBytes n) = n := by
  by_cases h : n = 0
  · subst h; simp [decBytes, digitsVal, valFrom]
  · simp only [decBytes, if_neg h, digitsVal]
    rw [decAux_val 10 n hn 0]
    simp

theorem decBytes_digits (n : Nat) : allDigits (decBytes n) := by
  by_cases h : n = 0
  · subst h
    intro d hd
    simp only [decBytes, if_pos rfl, List.mem_singleton, reduceIte] at hd
    subst hd; simp [isDigit]
  · simp only [decBytes, if_neg h]
    exact decAux_digits 10 n

theorem decBytes_ne_nil (n : Nat) : decBytes n ≠ [] := by
  by_cases h : n = 0
  · subst h; simp [decBytes]
  · simp only [decBytes, if_neg h]
    match n, h with
    | Nat.succ k, _ => simp [decAux]

theorem decBytes_cons (n : Nat) :
    ∃ d ds, decBytes n = d :: ds ∧ isDigit d = true := by
  match hb : decBytes n with
  | [] => exact absurd hb (decBytes_ne_nil n)
  | d :: ds =>
    refine ⟨d, ds, rfl, ?_⟩
    have := decBytes_digits n
    rw [hb] at this
    exact this d (List.mem_cons_self ..)

theorem decAux_len : ∀ fuel n k, n < 10 ^ k → (decAux fuel n).length ≤ k := by
  intro fuel
  induction fuel with
  | zero => intro n k _; simp [decAux]
  | succ fuel ih =>
    intro n k hn
    match n with
    | 0 => simp [decAux]
    | Nat.succ j =>
      match k with
      | 0 => simp at hn
      | Nat.succ k =>
        simp only [decAux, List.length_append, List.length_cons, List.length_nil]
        have : (j + 1) / 10 < 10 ^ k := by
          rw [Nat.div_lt_iff_lt_mul (by omega)]
          calc j + 1 < 10 ^ (k + 1) := hn
          _ = 10 ^ k * 10 := by rw [pow_succ]
        have := ih ((j + 1) / 10) k this
        omega

theorem decBytes_len_le {n k : Nat} (hk : 0 < k) (hn : n < 10 ^ k) :
    (decBytes n).length ≤ k := by
  by_cases h : n = 0
  · subst h; simpa [decBytes] using hk
  · simp only [decBytes, if_neg h]
    exact decAux_len 10 n k hn

/-! ## Lemmas about scanning helpers -/

theorem skipWsStrict_not_ws {b : Nat} (h : isWs b = false) (r : List Nat) :
    skipWsStrict (b :: r) = some (b :: r) := by
  simp [skipWsStrict, h]

theorem skipWsData_not_ws {b : Nat} (h : isWs b = false) (r : List Nat) :
    skipWsData (b :: r) = .ok (b :: r) := by
  simp [skipWsData, h]

theorem skipComments_cons {b : Nat} (h : b ≠ 35) (r : List Nat) :
    skipComments (b :: r) = b :: r := by
  simp [skipComments, skipCommentsAux, h]

theorem chunksExactAux_spec {α : Type} {n : Nat} (hn : 0 < n) : ∀ fuel (l : List α),
    l.length ≤ fuel → n ∣ l.length →
    (chunksExactAux n fuel l).length = l.length / n ∧
      (chunksExactAux n fuel l).flatten = l := by
  intro fuel
  induction fuel with
  | zero =>
    intro l hl _
    have : l = [] := List.eq_nil_of_length_eq_zero (by omega)
    subst this
    simp [chunksExactAux]
  | succ fuel ih =>
    intro l hl hdvd
    by_cases hle : n ≤ l.length
    · obtain ⟨m, hm⟩ := hdvd
      match m, hm with
      | 0, hm => exfalso; rw [Nat.mul_zero] at hm; omega
      | Nat.succ m', hm =>
        have hd1 : l.length - n = n * m' := by rw [hm, Nat.mul_succ]; omega
        have hrec := ih (l.drop n) (by simp only [List.length_drop]; omega)
          (by simp only [List.length_drop, hd1]; exact ⟨m', rfl⟩)
        simp only [chunksExactAux, if_pos (And.intro hn hle)]
        refine ⟨?_, ?_⟩
        · rw [List.length_cons, hrec.1, List.length_drop, hd1, hm,
            Nat.mul_div_cancel_left _ hn, Nat.mul_div_cancel_left _ hn]
        · simp only [List.flatten_cons, hrec.2, List.take_append_drop]
    · have hlen : l.length = 0 := by
        rcases hdvd with ⟨m, hm⟩
        match m with
        | 0 => simpa using hm
        | Nat.succ m' => exfalso; push_neg at hle; rw [hm, Nat.mul_succ] at hle; omega
      have hnil : l = [] := List.eq_nil_of_length_eq_zero hlen
      subst hnil
      have hcond : ¬(0 < n ∧ n ≤ ([] : List α).length) := by simp; omega
      simp only [chunksExactAux, if_neg hcond]
      simp

theorem chunksExact_spec {α : Type} {n : Nat} (hn : 0 < n) (l : List α)
    (hdvd : n ∣ l.length) :
    (chunksExact n l).length = l.length / n ∧ (chunksExact n l).flatten = l :=
  chunksExactAux_spec hn l.length l (Nat.le_refl _) hdvd

theorem testLit_append (lit : List Nat) (e : Error) (rest : List Nat) :
    pam.testLit lit e (lit ++ rest) = .ok rest := by
  simp [pam.testLit]

theorem testLit_ne {lit : List Nat} (e : Error) {x : List Nat}
    (h : x.take lit.length ≠ lit) : pam.testLit lit e x = .error e := by
  simp [pam.testLit, h]

theorem position_append {T : List Nat} (hT : ∀ b ∈ T, b ≠ 10) (z : List Nat) :
    pam.position (fun b => b == 10) (T ++ 10 :: z) = some T.length := by
  induction T with
  | nil => simp [pam.position]
  | cons a T ih =>
    have ha : a ≠ 10 := hT a (List.mem_cons_self ..)
    have ih' := ih fun b hb => hT b (List.mem_cons_of_mem _ hb)
    simp only [List.cons_append, pam.position, beq_iff_eq, if_neg ha]
    rw [show T.append (10 :: z) = T ++ 10 :: z from rfl, ih']
    simp

/-! ## Lemmas composing the classic decode pipeline -/

theorem isDigit_ne_35 {d : Nat} (h : isDigit d = true) : d ≠ 35 := by
  simp only [isDigit, decide_eq_true_eq] at h
  omega

theorem magic_P {t : Nat} (ht : 48 ≤ t) {c : Nat} (hc : isWs c = false)
    (r : List Nat) :
    magic (80 :: t :: 32 :: c :: r) = some (t - 48, c :: r) := by
  have h32 : isWs 32 = true := by decide
  simp only [magic, ne_eq, not_true_eq_false, if_neg, if_false, reduceIte,
    skipWsStrict, h32, hc]
  rw [if_neg (by omega : ¬t < 48)]
  simp [skipWsStrict, hc]

theorem digit_not_ws_head {w : Nat} :
    ∃ d ds, decBytes w = d :: ds ∧ isWs d = false ∧ d ≠ 35 := by
  obtain ⟨d, ds, hdec, hdig⟩ := decBytes_cons w
  exact ⟨d, ds, hdec, isWs_of_isDigit hdig, isDigit_ne_35 hdig⟩

theorem digitsVal_le_of_le {w h : Nat} (hh : 0 < h) (hwh : w * h ≤ maxU32) :
    w ≤ maxU32 :=
  le_trans (Nat.le_mul_of_pos_right w hh) hwh

theorem lt_pow10_of_le {w h : Nat} (hh : 0 < h) (hwh : w * h ≤ maxU32) :
    w < 10 ^ 10 :=
  lt_of_le_of_lt (digitsVal_le_of_le hh hwh) (by norm_num [maxU32])

theorem except_bind_ok (a : α) (f : α → Except Error β) :
    Except.bind (Except.ok a) f = f a := rfl

theorem except_map_ok (a : α) (f : α → β) :
    Except.map f (Except.ok a : Except Error α) = Except.ok (f a) := rfl

theorem okOr_some (a : α) (e : Error) : okOr (some a) e = .ok a := rfl

theorem okOr_none (e : Error) : okOr (none : Option α) e = .error e := rfl

theorem except_bind_error (e : Error) (f : α → Except Error β) :
    Except.bind (Except.error e : Except Error α) f = .error e := rfl

theorem except_map_error (e : Error) (f : α → β) :
    Except.map f (Except.error e : Except Error α) = .error e := rfl

theorem take_len_append (l₁ l₂ : List α) : (l₁ ++ l₂).take l₁.length = l₁ := by
  simp

theorem drop_len_append (l₁ l₂ : List α) : (l₁ ++ l₂).drop l₁.length = l₂ := by
  simp

theorem decode_header_raw255 {w h b0 : Nat} (hw : 0 < w) (hh : 0 < h)
    (hwh : w * h ≤ maxU32) (hb0 : isWs b0 = false) (r : List Nat) :
    decode_header 6
        (decBytes w ++ 32 :: (decBytes h ++ 32 :: 50 :: 53 :: 53 :: 10 :: b0 :: r)) =
      .ok (⟨6, w, h, some 255⟩, b0 :: r) := by
  obtain ⟨d, ds, hdec, hdws, hd35⟩ := @digit_not_ws_head w
  have hskip : skipComments
      (decBytes w ++ 32 :: (decBytes h ++ 32 :: 50 :: 53 :: 53 :: 10 :: b0 :: r)) =
      decBytes w ++ 32 :: (decBytes h ++ 32 :: 50 :: 53 :: 53 :: 10 :: b0 :: r) := by
    rw [hdec, List.cons_append, skipComments_cons hd35]
  have hw10 : w < 10 ^ 10 := lt_pow10_of_le hh hwh
  have hh10 : h < 10 ^ 10 := lt_pow10_of_le hw (by rw [Nat.mul_comm] at hwh; exact hwh)
  have hrw : read_til maxU32
      (decBytes w ++ 32 :: (decBytes h ++ 32 :: 50 :: 53 :: 53 :: 10 :: b0 :: r)) =
      .ok (w, decBytes h ++ 32 :: 50 :: 53 :: 53 :: 10 :: b0 :: r) := by
    rw [read_til_ws (decBytes_digits w)
      (by rw [decBytes_val hw10]; exact digitsVal_le_of_le hh hwh) (by decide) _,
      decBytes_val hw10]
  have hrh : read_til maxU32 (decBytes h ++ 32 :: 50 :: 53 :: 53 :: 10 :: b0 :: r) =
      .ok (h, 50 :: 53 :: 53 :: 10 :: b0 :: r) := by
    rw [read_til_ws (decBytes_digits h)
      (by rw [decBytes_val hh10]
          exact digitsVal_le_of_le hw (by rw [Nat.mul_comm] at hwh; exact hwh))
      (by decide) _, decBytes_val hh10]
  have hrm : read_til 255 (50 :: 53 :: 53 :: 10 :: b0 :: r) = .ok (255, b0 :: r) := by
    rw [show (50 :: 53 :: 53 :: 10 :: b0 :: r) = [50, 53, 53] ++ 10 :: b0 :: r from rfl]
    rw [read_til_ws (by decide) (by decide) (by decide) _]
    rfl
  unfold decode_header
  rw [hskip, hrw, except_bind_ok]
  simp only [if_neg (by omega : ¬w = 0)]
  rw [hrh, except_bind_ok]
  simp only [if_neg (by omega : ¬h = 0), if_neg (by omega : ¬maxU32 < w * h)]
  rw [if_pos (by omega : (6:Nat) ≠ 4 ∧ (6:Nat) ≠ 1), hrm, except_map_ok,
    except_bind_ok]
  rw [if_pos (by omega : (6:Nat) ≠ 4), skipWsData_not_ws hb0, except_map_ok]

theorem ppm_decode_body_exact {w h : Nat} (x : List Nat)
    (hlen : x.length = 3 * (w * h)) :
    ppm.raw.decode_body_into x w h = .ok ⟨w, h, x⟩ := by
  have hdvd : (3:Nat) ∣ x.length := ⟨w * h, hlen⟩
  obtain ⟨hclen, hflat⟩ := chunksExact_spec (by omega : (0:Nat) < 3) x hdvd
  have hcs : (chunksExact 3 x).length = w * h := by
    rw [hclen, hlen, Nat.mul_div_cancel_left _ (by omega : (0:Nat) < 3)]
  unfold ppm.raw.decode_body_into
  rw [List.take_of_length_le (le_of_eq hcs)]
  rw [if_neg (by omega), hflat]

theorem ppm_raw_encode_shape (w h : Nat) (buf : List Nat) :
    ppm.raw.encode_into w h buf =
      80 :: 54 :: 32 ::
        (decBytes w ++ 32 :: (decBytes h ++ 32 :: 50 :: 53 :: 53 :: 10 :: buf)) := by
  simp [ppm.raw.encode_into]

/-- C2, counterexample: the 1×1 RGB image whose single pixel is
`[0x20, 0, 0]` does not survive a raw-PPM round trip, because
`decode_header` skips the whitespace-looking leading body byte `0x20` and
the body then runs short, so decode fails `MissingData` instead of
returning the image. -/
theorem c2_roundtrip_counterexample :
    ppm.raw.decode (ppm.raw.encode_into 1 1 [32, 0, 0]) = .error .MissingData ∧
      ppm.raw.decode (ppm.raw.encode_into 1 1 [32, 0, 0]) ≠
        .ok ⟨1, 1, [32, 0, 0]⟩ := by
  refine ⟨rfl, fun hcontra => ?_⟩
  have herr : (Except.error Error.MissingData : Except Error (Image Nat)) =
      .ok ⟨1, 1, [32, 0, 0]⟩ :=
    (show ppm.raw.decode (ppm.raw.encode_into 1 1 [32, 0, 0]) =
        .error .MissingData from rfl).symm.trans hcontra
  exact Except.noConfusion herr

/-- C2 (amended): raw-PPM round trip. For every 3-channel image whose
width-height product fits in `u32` and whose first sample byte is not ASCII
whitespace, decoding the raw-PPM encoding returns an RGB image with the same
width, height and pixel buffer. (The whitespace restriction is forced by the
counterexample: `decode_header` eats leading whitespace-looking body bytes
even for the raw binary formats.) -/
theorem c2_roundtrip_amended (w h b0 : Nat) (rest : List Nat) (hw : 0 < w)
    (hh : 0 < h) (hwh : w * h ≤ maxU32) (hb0 : isWs b0 = false)
    (hlen : (b0 :: rest).length = 3 * (w * h)) :
    ppm.raw.decode (ppm.raw.encode_into w h (b0 :: rest)) =
      .ok ⟨w, h, b0 :: rest⟩ := by
  obtain ⟨d, ds, hdec, hdws, _⟩ := @digit_not_ws_head w
  have hmg : magic (80 :: 54 :: 32 ::
      (decBytes w ++ 32 :: (decBytes h ++ 32 :: 50 :: 53 :: 53 :: 10 :: b0 :: rest))) =
      some (6, decBytes w ++ 32 :: (decBytes h ++ 32 :: 50 :: 53 :: 53 :: 10 :: b0 :: rest)) := by
    rw [hdec, List.cons_append, magic_P (by omega) hdws]
  rw [ppm_raw_encode_shape]
  unfold ppm.raw.decode
  rw [hmg]
  simp only [okOr_some, except_bind_ok]
  rw [if_neg (by omega : ¬(6:Nat) ≠ 6)]
  unfold ppm.raw.decode_wo_magic
  rw [decode_header_raw255 hw hh hwh hb0 rest]
  simp only [except_bind_ok]
  exact ppm_decode_body_exact _ hlen

/-- Witness for `c2_roundtrip_amended` at a concrete 1×1 image. -/
theorem c2_roundtrip_amended_witness :
    ppm.raw.decode (ppm.raw.encode_into 1 1 [7, 8, 9]) = .ok ⟨1, 1, [7, 8, 9]⟩ :=
  c2_roundtrip_amended 1 1 7 [8, 9] (by decide) (by decide) (by decide)
    (by decide) (by decide)

/-- C1: truncated-body handling. The classic raw-PPM body decoder does fail
`MissingData` on a 4×4 body given only 47 of 48 bytes, but the tagged-tuple
(`PAM`) `decode_inner` does not: on the `BLACKANDWHITE` tupltype with
`width*height*bytes = 4` and only 3 input bytes it returns `Ok` having
written just 3 elements, and the full `decode_wo_magic` pipeline then hands
back an "initialized" image whose buffer holds only 3 of the 4 required
bytes (in the source, `set_len(4)` over a 3-byte-initialized allocation). -/
theorem c1_truncated_body :
    ppm.raw.decode_body_into (List.replicate 47 0) 4 4 = .error .MissingData ∧
    pam.decode_inner [1, 1, 1] ⟨2, 2, 1, 255, .Bit⟩ = .ok [255, 255, 255] ∧
    pam.Typ.bytes .Bit * 2 * 2 = 4 ∧
    pam.decode_wo_magic
        (pam.wLit ++ [50] ++ [10] ++ pam.hLit ++ [50, 10] ++ pam.dLit ++ [49, 10]
          ++ pam.mLit ++ [50, 53, 53, 10] ++ pam.tLit ++ pam.bwLit ++ pam.endLit
          ++ [1, 1, 1]) =
      .ok (.Y ⟨2, 2, [255, 255, 255]⟩) := by
  refine ⟨by decide, by decide, by decide, by decide⟩

/-- C3: raw-PBM bit packing. A 9-wide row does pack into 2 bytes and a
single row round-trips, but with two rows the decoder's row chunking uses
`width + width % 8 = 10` bits per row instead of the encoder's
`ceil(width/8)*8 = 16`, so an 18-pixel all-`true` 9×2 bitmap decodes to a
wrong second row (and, in the source, 27 booleans are written into the
18-element buffer). -/
theorem c3_bitpacking_failure :
    pbm.raw.encode_body 9 (List.replicate 18 true) = [255, 128, 255, 128] ∧
    pbm.raw.decode_body_into [255, 128] 9 1 = .ok ⟨9, 1, List.replicate 9 true⟩ ∧
    pbm.raw.decode_body_into (pbm.raw.encode_body 9 (List.replicate 18 true)) 9 2 =
      .ok ⟨9, 2, List.replicate 9 true
        ++ [false, false, false, false, false, false, true, true, true]⟩ ∧
    pbm.raw.decode_body_into (pbm.raw.encode_body 9 (List.replicate 18 true)) 9 2 ≠
      .ok ⟨9, 2, List.replicate 18 true⟩ := by
  refine ⟨by decide, by decide, by decide, by decide⟩

/-- C4: the PAM `DEPTH` header field. Encoding a 1×1 4-channel image writes a
header that parses back with `depth = 2` even though the tupltype is
`RGB_ALPHA` (byte-width 4) and the body holds 4 bytes per pixel; the
3-channel encoder, by contrast, writes the matching `DEPTH 3`. -/
theorem c4_pam_depth_field :
    pam.decode_pam_header ((pam.encode_rgba [1, 2, 3, 4] 1 1).drop 3) =
      .ok (⟨1, 1, 2, 255, .RGBA⟩, [1, 2, 3, 4]) ∧
    pam.Typ.bytes .RGBA = 4 ∧
    pam.decode_pam_header ((pam.encode_rgb [1, 2, 3] 1 1).drop 3) =
      .ok (⟨1, 1, 3, 255, .RGB⟩, [1, 2, 3]) := by
  refine ⟨by decide, by decide, by decide⟩

/-- C9: encode length versus the size estimator. The raw-PPM estimator
reserves `2 + 23 + len` bytes, but the encoder writes
`9 + digits(w) + digits(h) + len`: at 100000000×100000000 (9 decimal digits
each, buffer `3*10^16`) the encoder exceeds the reservation by 2 bytes. The
PAM and both PBM encoders stay within their estimates on the same shapes. -/
theorem c9_size_estimate_bug :
    ppm.raw.size (List.replicate 30000000000000000 (0 : Nat)).length <
      (ppm.raw.encode_into 100000000 100000000
        (List.replicate 30000000000000000 0)).length ∧
    (ppm.raw.encode_into 100000000 100000000
        (List.replicate 30000000000000000 0)).length = 30000000000000027 ∧
    ppm.raw.size (List.replicate 30000000000000000 (0 : Nat)).length =
      30000000000000025 ∧
    (pam.encode_rgba [1, 2, 3, 4] 1 1).length ≤ pam.size 4 ∧
    (pbm.raw.encode_into 9 2 (List.replicate 18 true)).length ≤ pbm.raw.size 18 9 2 ∧
    (pbm.plain.encode_into 9 2 (List.replicate 18 true)).length ≤
      pbm.plain.size 18 2 := by
  have h9 : (decBytes 100000000).length = 9 := by decide
  have hlen : (ppm.raw.encode_into 100000000 100000000
      (List.replicate 30000000000000000 (0 : Nat))).length = 30000000000000027 := by
    unfold ppm.raw.encode_into
    rw [List.length_append, List.length_append, List.length_append,
      List.length_append, List.length_append, List.length_append,
      List.length_replicate, h9]
    rw [show ([80, 54] : List Nat).length = 2 from rfl,
      show ([32] : List Nat).length = 1 from rfl,
      show ([32, 50, 53, 53, 10] : List Nat).length = 5 from rfl]
  have hsz : ppm.raw.size (List.replicate 30000000000000000 (0 : Nat)).length =
      30000000000000025 := by
    rw [List.length_replicate]
    unfold ppm.raw.size
    omega
  refine ⟨?_, hlen, hsz, by decide, by decide, by decide⟩
  rw [hlen, hsz]
  omega

/-- C5: the numeric parser's contract. `"256"` at 8-bit width overflows while
`"255"` parses to 255; a leading whitespace byte (or end of input) yields 0
with the terminator consumed; for any all-digit prefix whose value fits the
width, the parser returns the Horner accumulation and consumes the
terminating whitespace (or stops at end of input); the first byte that is
neither digit nor whitespace fails `NotDigit` carrying that byte; and an
all-digit prefix whose value exceeds the width fails `Overflow`. -/
theorem c5_read_til_contract :
    read_til 255 [50, 53, 54] = .error .Overflow ∧
    read_til 255 [50, 53, 53] = .ok (255, []) ∧
    (∀ m w rest, isWs w = true → read_til m (w :: rest) = .ok (0, rest)) ∧
    (∀ m, read_til m [] = .ok (0, [])) ∧
    (∀ m ds w rest, allDigits ds → digitsVal ds ≤ m → isWs w = true →
      read_til m (ds ++ w :: rest) = .ok (digitsVal ds, rest)) ∧
    (∀ m ds, allDigits ds → digitsVal ds ≤ m →
      read_til m ds = .ok (digitsVal ds, [])) ∧
    (∀ m ds c rest, allDigits ds → digitsVal ds ≤ m → isDigit c = false →
      isWs c = false → read_til m (ds ++ c :: rest) = .error (.NotDigit c)) ∧
    (∀ m ds rest, allDigits ds → m < digitsVal ds →
      read_til m (ds ++ rest) = .error .Overflow) := by
  refine ⟨by decide, by decide, ?_, ?_, ?_, ?_, ?_, ?_⟩
  · intro m w rest hw
    exact read_til_ws (show allDigits [] from fun d hd => by simp at hd)
      (Nat.zero_le m) hw rest
  · intro m
    exact read_til_eof (show allDigits [] from fun d hd => by simp at hd)
      (Nat.zero_le m)
  · intro m ds w rest hdig hle hw
    exact read_til_ws hdig hle hw rest
  · intro m ds hdig hle
    exact read_til_eof hdig hle
  · intro m ds c rest hdig hle hc hcw
    exact read_til_notdigit hdig hle hc hcw rest
  · intro m ds rest hdig hlt
    exact read_til_overflow hdig hlt rest

/-- Witness for `c5_read_til_contract` at concrete inputs. -/
theorem c5_read_til_contract_witness :
    read_til 255 [32, 55] = .ok (0, [55]) ∧
    read_til maxU32 [49, 50, 51, 10, 99] = .ok (123, [99]) ∧
    read_til 255 [49, 58] = .error (.NotDigit 58) ∧
    read_til maxU32 [53, 54, 55, 53, 54, 55, 53, 54, 55, 53, 32] =
      .error .Overflow := by
  refine ⟨c5_read_til_contract.2.2.1 255 32 [55] (by decide), ?_, ?_, ?_⟩
  · exact c5_read_til_contract.2.2.2.2.1 maxU32 [49, 50, 51] 10 [99]
      (by decide) (by decide) (by decide)
  · exact c5_read_til_contract.2.2.2.2.2.2.1 255 [49] 58 [] (by decide)
      (by decide) (by decide) (by decide)
  · exact c5_read_til_contract.2.2.2.2.2.2.2 maxU32
      [53, 54, 55, 53, 54, 55, 53, 54, 55, 53] [32] (by decide) (by decide)

theorem skipComments_digits_ws {ds : List Nat} (hdig : allDigits ds) {w : Nat}
    (hw : isWs w = true) (rest : List Nat) :
    skipComments (ds ++ w :: rest) = ds ++ w :: rest := by
  cases ds with
  | nil =>
    simp only [List.nil_append]
    apply skipComments_cons
    simp only [isWs, decide_eq_true_eq] at hw
    omega
  | cons d ds' =>
    rw [List.cons_append]
    exact skipComments_cons (isDigit_ne_35 (hdig d (List.mem_cons_self ..))) _

/-- C6: dimension validation in the classic header decoder. The concrete
headers `"P1 0 5\n"` and `"P1 5 0\n"` fail `ZeroWidth` and `ZeroHeight`, and
`"P1 65536 65536 "` fails `TooLarge`; in general a parsed width of 0 fails
`ZeroWidth` before the height is read, a parsed height of 0 fails
`ZeroHeight`, and a width-height product above `u32::MAX` fails `TooLarge`,
all before any body decoding. -/
theorem c6_dimension_checks :
    pbm.plain.decode [80, 49, 32, 48, 32, 53, 10] = .error .ZeroWidth ∧
    pbm.plain.decode [80, 49, 32, 53, 32, 48, 10] = .error .ZeroHeight ∧
    pbm.plain.decode [80, 49, 32, 54, 53, 53, 51, 54, 32, 54, 53, 53, 51, 54, 32] =
      .error .TooLarge ∧
    (∀ m ds w rest, allDigits ds → digitsVal ds = 0 → isWs w = true →
      decode_header m (ds ++ w :: rest) = .error .ZeroWidth) ∧
    (∀ m dw dh w1 w2 rest, allDigits dw → 0 < digitsVal dw →
      digitsVal dw ≤ maxU32 → allDigits dh → digitsVal dh = 0 →
      isWs w1 = true → isWs w2 = true →
      decode_header m (dw ++ w1 :: (dh ++ w2 :: rest)) = .error .ZeroHeight) ∧
    (∀ m dw dh w1 w2 rest, allDigits dw → 0 < digitsVal dw →
      digitsVal dw ≤ maxU32 → allDigits dh → 0 < digitsVal dh →
      digitsVal dh ≤ maxU32 → maxU32 < digitsVal dw * digitsVal dh →
      isWs w1 = true → isWs w2 = true →
      decode_header m (dw ++ w1 :: (dh ++ w2 :: rest)) = .error .TooLarge) := by
  refine ⟨by decide, by decide, by decide, ?_, ?_, ?_⟩
  · intro m ds w rest hdig hval hw
    unfold decode_header
    rw [skipComments_digits_ws hdig hw rest, read_til_ws hdig (by omega) hw rest,
      hval]
    simp [except_bind_ok]
  · intro m dw dh w1 w2 rest hdw hwpos hwle hdh hh0 hw1 hw2
    unfold decode_header
    rw [skipComments_digits_ws hdw hw1 _, read_til_ws hdw hwle hw1 _]
    simp only [except_bind_ok]
    rw [if_neg (by omega : ¬digitsVal dw = 0),
      read_til_ws hdh (by omega) hw2 rest, hh0]
    simp [except_bind_ok]
  · intro m dw dh w1 w2 rest hdw hwpos hwle hdh hhpos hhle hbig hw1 hw2
    unfold decode_header
    rw [skipComments_digits_ws hdw hw1 _, read_til_ws hdw hwle hw1 _]
    simp only [except_bind_ok]
    rw [if_neg (by omega : ¬digitsVal dw = 0),
      read_til_ws hdh hhle hw2 rest]
    simp only [except_bind_ok]
    rw [if_neg (by omega : ¬digitsVal dh = 0),
      if_pos (by omega : maxU32 < digitsVal dw * digitsVal dh)]

/-- Witness for `c6_dimension_checks` at concrete header fragments. -/
theorem c6_dimension_checks_witness :
    decode_header 5 [48, 32, 57, 57] = .error .ZeroWidth ∧
    decode_header 5 [51, 32, 48, 48, 10, 7] = .error .ZeroHeight ∧
    decode_header 5 ([57, 57, 57, 57, 57, 32] ++
      [57, 57, 57, 57, 57, 32, 7]) = .error .TooLarge := by
  refine ⟨?_, ?_, ?_⟩
  · exact c6_dimension_checks.2.2.2.1 5 [48] 32 [57, 57] (by decide) (by decide)
      (by decide)
  · exact c6_dimension_checks.2.2.2.2.1 5 [51] [48, 48] 32 10 [7] (by decide)
      (by decide) (by decide) (by decide) (by decide) (by decide) (by decide)
  · exact c6_dimension_checks.2.2.2.2.2 5 [57, 57, 57, 57, 57]
      [57, 57, 57, 57, 57] 32 32 [7] (by decide) (by decide) (by decide)
      (by decide) (by decide) (by decide) (by decide) (by decide) (by decide)

/-- C7: PAM header strictness. Any input whose first 6 bytes are not the
literal `"WIDTH "` fails `MissingWidth` (so a header starting with
`"HEIGHT "` fails `MissingWidth`, not `MissingHeight`); after a well-formed
`WIDTH` line, a mismatch of `"HEIGHT "` fails `MissingHeight`, and likewise
for `"DEPTH "`, `"MAXVAL "` and `"TUPLTYPE "`; a tupltype name outside the
six known literals fails `MissingTupltype`; and anything other than the
exact trailing `"\nENDHDR\n"` fails `MissingData`. -/
theorem c7_pam_header_strictness :
    (∀ x : List Nat, x.take 6 ≠ pam.wLit →
      pam.decode_pam_header x = .error .MissingWidth) ∧
    (∀ dw rest, allDigits dw → 0 < digitsVal dw → digitsVal dw ≤ maxU32 →
      rest.take 7 ≠ pam.hLit →
      pam.decode_pam_header (pam.wLit ++ (dw ++ 10 :: rest)) =
        .error .MissingHeight) ∧
    (∀ dw dh rest, allDigits dw → 0 < digitsVal dw → digitsVal dw ≤ maxU32 →
      allDigits dh → 0 < digitsVal dh →
      digitsVal dw * digitsVal dh ≤ maxU32 → rest.take 6 ≠ pam.dLit →
      pam.decode_pam_header
          (pam.wLit ++ (dw ++ 10 :: (pam.hLit ++ (dh ++ 10 :: rest)))) =
        .error .MissingDepth) ∧
    (∀ dw dh dd rest, allDigits dw → 0 < digitsVal dw → digitsVal dw ≤ maxU32 →
      allDigits dh → 0 < digitsVal dh →
      digitsVal dw * digitsVal dh ≤ maxU32 →
      allDigits dd → digitsVal dd ≤ 255 → rest.take 7 ≠ pam.mLit →
      pam.decode_pam_header
          (pam.wLit ++ (dw ++ 10 :: (pam.hLit ++ (dh ++ 10 ::
            (pam.dLit ++ (dd ++ 10 :: rest)))))) =
        .error .MissingMax) ∧
    (∀ dw dh dd dm rest, allDigits dw → 0 < digitsVal dw →
      digitsVal dw ≤ maxU32 → allDigits dh → 0 < digitsVal dh →
      digitsVal dw * digitsVal dh ≤ maxU32 →
      allDigits dd → digitsVal dd ≤ 255 → allDigits dm → digitsVal dm ≤ 255 →
      rest.take 9 ≠ pam.tLit →
      pam.decode_pam_header
          (pam.wLit ++ (dw ++ 10 :: (pam.hLit ++ (dh ++ 10 ::
            (pam.dLit ++ (dd ++ 10 :: (pam.mLit ++ (dm ++ 10 :: rest)))))))) =
        .error .MissingTupltype) ∧
    (∀ dw dh dd dm T z, allDigits dw → 0 < digitsVal dw →
      digitsVal dw ≤ maxU32 → allDigits dh → 0 < digitsVal dh →
      digitsVal dw * digitsVal dh ≤ maxU32 →
      allDigits dd → digitsVal dd ≤ 255 → allDigits dm → digitsVal dm ≤ 255 →
      (∀ b ∈ T, b ≠ 10) → pam.parseTupl T = none →
      pam.decode_pam_header
          (pam.wLit ++ (dw ++ 10 :: (pam.hLit ++ (dh ++ 10 ::
            (pam.dLit ++ (dd ++ 10 :: (pam.mLit ++ (dm ++ 10 ::
              (pam.tLit ++ (T ++ 10 :: z)))))))))) =
        .error .MissingTupltype) ∧
    (∀ dw dh dd dm z, allDigits dw → 0 < digitsVal dw →
      digitsVal dw ≤ maxU32 → allDigits dh → 0 < digitsVal dh →
      digitsVal dw * digitsVal dh ≤ maxU32 →
      allDigits dd → digitsVal dd ≤ 255 → allDigits dm → digitsVal dm ≤ 255 →
      (10 :: z).take 8 ≠ pam.endLit →
      pam.decode_pam_header
          (pam.wLit ++ (dw ++ 10 :: (pam.hLit ++ (dh ++ 10 ::
            (pam.dLit ++ (dd ++ 10 :: (pam.mLit ++ (dm ++ 10 ::
              (pam.tLit ++ (pam.rgbLit ++ 10 :: z)))))))))) =
        .error .MissingData) := by
  refine ⟨?_, ?_, ?_, ?_, ?_, ?_, ?_⟩
  · intro x hne
    unfold pam.decode_pam_header
    rw [testLit_ne .MissingWidth (by simpa using hne), except_bind_error]
  · intro dw rest hdw hpos hle hne
    unfold pam.decode_pam_header
    rw [testLit_append, except_bind_ok, read_til_ws hdw hle (by decide) rest,
      except_bind_ok]
    simp only [if_neg (by omega : ¬digitsVal dw = 0)]
    rw [testLit_ne .MissingHeight (by simpa using hne), except_bind_error]
  · intro dw dh rest hdw hwpos hwle hdh hhpos hprod hne
    unfold pam.decode_pam_header
    rw [testLit_append, except_bind_ok, read_til_ws hdw hwle (by decide) _,
      except_bind_ok]
    simp only [if_neg (by omega : ¬digitsVal dw = 0)]
    rw [testLit_append, except_bind_ok,
      read_til_ws hdh (le_trans (Nat.le_mul_of_pos_left _ hwpos) hprod)
        (by decide) rest, except_bind_ok]
    simp only [if_neg (by omega : ¬digitsVal dh = 0),
      if_neg (by omega : ¬maxU32 < digitsVal dw * digitsVal dh)]
    rw [testLit_ne .MissingDepth (by simpa using hne), except_bind_error]
  · intro dw dh dd rest hdw hwpos hwle hdh hhpos hprod hdd hdle hne
    unfold pam.decode_pam_header
    rw [testLit_append, except_bind_ok, read_til_ws hdw hwle (by decide) _,
      except_bind_ok]
    simp only [if_neg (by omega : ¬digitsVal dw = 0)]
    rw [testLit_append, except_bind_ok,
      read_til_ws hdh (le_trans (Nat.le_mul_of_pos_left _ hwpos) hprod)
        (by decide) _, except_bind_ok]
    simp only [if_neg (by omega : ¬digitsVal dh = 0),
      if_neg (by omega : ¬maxU32 < digitsVal dw * digitsVal dh)]
    rw [testLit_append, except_bind_ok, read_til_ws hdd hdle (by decide) rest,
      except_bind_ok]
    rw [testLit_ne .MissingMax (by simpa using hne), except_bind_error]
  · intro dw dh dd dm rest hdw hwpos hwle hdh hhpos hprod hdd hdle hdm hmle hne
    unfold pam.decode_pam_header
    rw [testLit_append, except_bind_ok, read_til_ws hdw hwle (by decide) _,
      except_bind_ok]
    simp only [if_neg (by omega : ¬digitsVal dw = 0)]
    rw [testLit_append, except_bind_ok,
      read_til_ws hdh (le_trans (Nat.le_mul_of_pos_left _ hwpos) hprod)
        (by decide) _, except_bind_ok]
    simp only [if_neg (by omega : ¬digitsVal dh = 0),
      if_neg (by omega : ¬maxU32 < digitsVal dw * digitsVal dh)]
    rw [testLit_append, except_bind_ok, read_til_ws hdd hdle (by decide) _,
      except_bind_ok]
    rw [testLit_append, except_bind_ok, read_til_ws hdm hmle (by decide) rest,
      except_bind_ok]
    rw [testLit_ne .MissingTupltype (by simpa using hne), except_bind_error]
  · intro dw dh dd dm T z hdw hwpos hwle hdh hhpos hprod hdd hdle hdm hmle hT
      hnone
    unfold pam.decode_pam_header
    rw [testLit_append, except_bind_ok, read_til_ws hdw hwle (by decide) _,
      except_bind_ok]
    simp only [if_neg (by omega : ¬digitsVal dw = 0)]
    rw [testLit_append, except_bind_ok,
      read_til_ws hdh (le_trans (Nat.le_mul_of_pos_left _ hwpos) hprod)
        (by decide) _, except_bind_ok]
    simp only [if_neg (by omega : ¬digitsVal dh = 0),
      if_neg (by omega : ¬maxU32 < digitsVal dw * digitsVal dh)]
    rw [testLit_append, except_bind_ok, read_til_ws hdd hdle (by decide) _,
      except_bind_ok]
    rw [testLit_append, except_bind_ok, read_til_ws hdm hmle (by decide) _,
      except_bind_ok]
    rw [testLit_append, except_bind_ok, position_append hT z, okOr_some,
      except_bind_ok, take_len_append, hnone, okOr_none, except_bind_error]
  · intro dw dh dd dm z hdw hwpos hwle hdh hhpos hprod hdd hdle hdm hmle hne
    unfold pam.decode_pam_header
    rw [testLit_append, except_bind_ok, read_til_ws hdw hwle (by decide) _,
      except_bind_ok]
    simp only [if_neg (by omega : ¬digitsVal dw = 0)]
    rw [testLit_append, except_bind_ok,
      read_til_ws hdh (le_trans (Nat.le_mul_of_pos_left _ hwpos) hprod)
        (by decide) _, except_bind_ok]
    simp only [if_neg (by omega : ¬digitsVal dh = 0),
      if_neg (by omega : ¬maxU32 < digitsVal dw * digitsVal dh)]
    rw [testLit_append, except_bind_ok, read_til_ws hdd hdle (by decide) _,
      except_bind_ok]
    rw [testLit_append, except_bind_ok, read_til_ws hdm hmle (by decide) _,
      except_bind_ok]
    rw [testLit_append, except_bind_ok,
      position_append (show ∀ b ∈ pam.rgbLit, b ≠ 10 by decide) z, okOr_some,
      except_bind_ok, take_len_append]
    rw [show pam.parseTupl pam.rgbLit = some .RGB from rfl, okOr_some,
      except_bind_ok, drop_len_append]
    rw [testLit_ne .MissingData (by simpa using hne), except_map_error]

/-- Witness for `c7_pam_header_strictness`: a `HEIGHT`-first header fails
`MissingWidth`, and each later stage fails its own error on a concrete
input. -/
theorem c7_pam_header_strictness_witness :
    pam.decode_pam_header
        (pam.hLit ++ [49, 10] ++ pam.wLit ++ [49, 10]) = .error .MissingWidth ∧
    pam.decode_pam_header (pam.wLit ++ ([49] ++ 10 :: (pam.wLit ++ [49, 10]))) =
      .error .MissingHeight ∧
    pam.decode_pam_header
        (pam.wLit ++ ([49] ++ 10 :: (pam.hLit ++ ([49] ++ 10 :: [88, 88, 88, 88, 88, 88])))) =
      .error .MissingDepth ∧
    pam.decode_pam_header
        (pam.wLit ++ ([49] ++ 10 :: (pam.hLit ++ ([49] ++ 10 ::
          (pam.dLit ++ ([51] ++ 10 :: [88, 88, 88, 88, 88, 88, 88])))))) =
      .error .MissingMax ∧
    pam.decode_pam_header
        (pam.wLit ++ ([49] ++ 10 :: (pam.hLit ++ ([49] ++ 10 ::
          (pam.dLit ++ ([51] ++ 10 :: (pam.mLit ++ ([50, 53, 53] ++ 10 ::
            [88, 88, 88, 88, 88, 88, 88, 88, 88])))))))) =
      .error .MissingTupltype ∧
    pam.decode_pam_header
        (pam.wLit ++ ([49] ++ 10 :: (pam.hLit ++ ([49] ++ 10 ::
          (pam.dLit ++ ([51] ++ 10 :: (pam.mLit ++ ([50, 53, 53] ++ 10 ::
            (pam.tLit ++ ([88] ++ 10 :: [69])))))))))) =
      .error .MissingTupltype ∧
    pam.decode_pam_header
        (pam.wLit ++ ([49] ++ 10 :: (pam.hLit ++ ([49] ++ 10 ::
          (pam.dLit ++ ([51] ++ 10 :: (pam.mLit ++ ([50, 53, 53] ++ 10 ::
            (pam.tLit ++ (pam.rgbLit ++ 10 :: [88])))))))))) =
      .error .MissingData := by
  refine ⟨?_, ?_, ?_, ?_, ?_, ?_, ?_⟩
  · exact c7_pam_header_strictness.1 _ (by decide)
  · exact c7_pam_header_strictness.2.1 [49] _ (by decide) (by decide) (by decide)
      (by decide)
  · exact c7_pam_header_strictness.2.2.1 [49] [49] _ (by decide) (by decide)
      (by decide) (by decide) (by decide) (by decide) (by decide)
  · exact c7_pam_header_strictness.2.2.2.1 [49] [49] [51] _ (by decide)
      (by decide) (by decide) (by decide) (by decide) (by decide) (by decide)
      (by decide) (by decide)
  · exact c7_pam_header_strictness.2.2.2.2.1 [49] [49] [51] [50, 53, 53] _
      (by decide) (by decide) (by decide) (by decide) (by decide) (by decide)
      (by decide) (by decide) (by decide) (by decide) (by decide)
  · exact c7_pam_header_strictness.2.2.2.2.2.1 [49] [49] [51] [50, 53, 53]
      [88] [69] (by decide) (by decide) (by decide) (by decide) (by decide)
      (by decide) (by decide) (by decide) (by decide) (by decide) (by decide)
      (by decide)
  · exact c7_pam_header_strictness.2.2.2.2.2.2 [49] [49] [51] [50, 53, 53]
      [88] (by decide) (by decide) (by decide) (by decide) (by decide)
      (by decide) (by decide) (by decide) (by decide) (by decide) (by decide)

/-- A well-formed PAM header byte string (after the magic line) whose numeric
fields are the given decimal digit strings, laid out exactly as
`pam::encode_into` writes it and `decode_pam_header` reads it. -/
def pamHeaderBytes (dw dh dd dm T : List Nat) : List Nat :=
  pam.wLit ++ (dw ++ 10 :: (pam.hLit ++ (dh ++ 10 :: (pam.dLit ++ (dd ++ 10 ::
    (pam.mLit ++ (dm ++ 10 :: (pam.tLit ++ (T ++ pam.endLit)))))))))

theorem decode_pam_header_spec {dw dh dd dm T : List Nat} {t : pam.Typ}
    (body : List Nat)
    (hdw : allDigits dw) (hwpos : 0 < digitsVal dw)
    (hwle : digitsVal dw ≤ maxU32)
    (hdh : allDigits dh) (hhpos : 0 < digitsVal dh)
    (hprod : digitsVal dw * digitsVal dh ≤ maxU32)
    (hdd : allDigits dd) (hdle : digitsVal dd ≤ 255)
    (hdm : allDigits dm) (hmle : digitsVal dm ≤ 255)
    (hT : ∀ b ∈ T, b ≠ 10) (ht : pam.parseTupl T = some t) :
    pam.decode_pam_header (pamHeaderBytes dw dh dd dm T ++ body) =
      .ok (⟨digitsVal dw, digitsVal dh, digitsVal dd, digitsVal dm, t⟩, body) := by
  have hshape : pamHeaderBytes dw dh dd dm T ++ body =
      pam.wLit ++ (dw ++ 10 :: (pam.hLit ++ (dh ++ 10 :: (pam.dLit ++ (dd ++ 10 ::
        (pam.mLit ++ (dm ++ 10 :: (pam.tLit ++
          (T ++ 10 :: ([69, 78, 68, 72, 68, 82, 10] ++ body)))))))))) := by
    simp [pamHeaderBytes, pam.endLit]
  rw [hshape]
  unfold pam.decode_pam_header
  rw [testLit_append, except_bind_ok, read_til_ws hdw hwle (by decide) _,
    except_bind_ok]
  simp only [if_neg (by omega : ¬digitsVal dw = 0)]
  rw [testLit_append, except_bind_ok,
    read_til_ws hdh (le_trans (Nat.le_mul_of_pos_left _ hwpos) hprod)
      (by decide) _, except_bind_ok]
  simp only [if_neg (by omega : ¬digitsVal dh = 0),
    if_neg (by omega : ¬maxU32 < digitsVal dw * digitsVal dh)]
  rw [testLit_append, except_bind_ok, read_til_ws hdd hdle (by decide) _,
    except_bind_ok]
  rw [testLit_append, except_bind_ok, read_til_ws hdm hmle (by decide) _,
    except_bind_ok]
  rw [testLit_append, except_bind_ok, position_append hT _, okOr_some,
    except_bind_ok, take_len_append, ht, okOr_some, except_bind_ok,
    drop_len_append]
  rw [show (10 :: ([69, 78, 68, 72, 68, 82, 10] ++ body)) = pam.endLit ++ body
      from by simp [pam.endLit]]
  rw [testLit_append, except_map_ok]

theorem decode_inner_fields (x : List Nat) (w h d1 d2 m1 m2 : Nat)
    (t : pam.Typ) :
    pam.decode_inner x ⟨w, h, d1, m1, t⟩ = pam.decode_inner x ⟨w, h, d2, m2, t⟩ := by
  cases t <;> rfl

/-- C10: PAM decoding never uses the parsed `DEPTH` and `MAXVAL` values. Two
PAM inputs that differ only in the digit strings of their `DEPTH` and
`MAXVAL` fields (each still parseable as an 8-bit integer) decode to
identical results, whatever the tupltype; in particular no error is raised
when the written depth is inconsistent with the tupltype. -/
theorem c10_pam_depth_maxval_ignored (dw dh d1 d2 m1 m2 T body : List Nat)
    (t : pam.Typ)
    (hdw : allDigits dw) (hwpos : 0 < digitsVal dw)
    (hwle : digitsVal dw ≤ maxU32)
    (hdh : allDigits dh) (hhpos : 0 < digitsVal dh)
    (hprod : digitsVal dw * digitsVal dh ≤ maxU32)
    (hd1 : allDigits d1) (hd1le : digitsVal d1 ≤ 255)
    (hd2 : allDigits d2) (hd2le : digitsVal d2 ≤ 255)
    (hm1 : allDigits m1) (hm1le : digitsVal m1 ≤ 255)
    (hm2 : allDigits m2) (hm2le : digitsVal m2 ≤ 255)
    (hT : ∀ b ∈ T, b ≠ 10) (ht : pam.parseTupl T = some t) :
    pam.decode_wo_magic (pamHeaderBytes dw dh d1 m1 T ++ body) =
      pam.decode_wo_magic (pamHeaderBytes dw dh d2 m2 T ++ body) := by
  unfold pam.decode_wo_magic
  rw [decode_pam_header_spec body hdw hwpos hwle hdh hhpos hprod hd1 hd1le
    hm1 hm1le hT ht,
    decode_pam_header_spec body hdw hwpos hwle hdh hhpos hprod hd2 hd2le
    hm2 hm2le hT ht]
  simp only [except_bind_ok]
  rw [decode_inner_fields body (digitsVal dw) (digitsVal dh) (digitsVal d1)
    (digitsVal d2) (digitsVal m1) (digitsVal m2) t]

/-- Witness for `c10_pam_depth_maxval_ignored`: a `DEPTH 9, MAXVAL 0` header
and a `DEPTH 4, MAXVAL 255` header over the same `RGB` tupltype and body
decode identically (the depth 9 is inconsistent with RGB yet raises no
error). -/
theorem c10_pam_depth_maxval_ignored_witness :
    pam.decode_wo_magic (pamHeaderBytes [49] [49] [57] [48] pam.rgbLit ++ [1, 2, 3]) =
      pam.decode_wo_magic (pamHeaderBytes [49] [49] [52] [50, 53, 53] pam.rgbLit ++ [1, 2, 3]) :=
  c10_pam_depth_maxval_ignored [49] [49] [57] [52] [48] [50, 53, 53]
    pam.rgbLit [1, 2, 3] .RGB (by decide) (by decide) (by decide) (by decide)
    (by decide) (by decide) (by decide) (by decide) (by decide) (by decide)
    (by decide) (by decide) (by decide) (by decide) (by decide) (by decide)
